import Mathlib

/-!
Shallow embedding of the single-asset order-matching engine implemented by the
`Matcher` class of src/server/app/extraTcombTypes.js together with the `Order`
struct of src/server/app/order.js, and proofs about it.

Modelling conventions:
* account ids (uuids) are opaque identifiers, modelled as naturals;
* prices, quantities, money and stock are tcomb `t.Integer`, modelled as `Int`;
* order timestamps (moment objects, compared via `a.time.diff(b.time)`) are
  modelled as integers; the current clock value is passed explicitly to the
  operations that read it (`moment()`);
* a thrown JS exception is modelled by returning `some message` next to the
  state the engine object holds at the moment of the throw;
* the user dictionary is modelled as a total function from account ids to
  balances (the dictionary starts empty; absent accounts carry a zero balance).
-/

namespace Engine

/-- Order side: the tcomb enum of order.js (`BUY` | `SELL`). -/
inductive Action where
  | BUY : Action
  | SELL : Action
deriving DecidableEq, Repr

/-- The `Order` tcomb struct of order.js. -/
structure Order where
  account : Nat
  price : Int
  quantity : Int
  action : Action
  time : Int
deriving DecidableEq, Repr

/-- The `Balance` tcomb struct: money and stock, both `t.Integer`. -/
structure Balance where
  money : Int
  stock : Int
deriving DecidableEq, Repr

/-- The `HistoryEntry` tcomb struct. -/
structure HistoryEntry where
  buyer : Nat
  seller : Nat
  buyPrice : Int
  sellPrice : Int
  quantity : Int
  time : Int
deriving DecidableEq, Repr

/-- The engine state: the fields set up by the `Matcher` constructor. -/
structure Matcher where
  buyOrders : List Order
  sellOrders : List Order
  overheadMade : Int
  users : Nat → Balance
  history : List HistoryEntry

/-- The `Matcher` constructor: empty books, zero overhead, empty user
    dictionary, empty history. -/
def initMatcher : Matcher :=
  { buyOrders := [], sellOrders := [], overheadMade := 0,
    users := fun _ => ⟨0, 0⟩, history := [] }

/-- The buy-book comparator of `getBestBuyOrder`, as the relation "sorts no
    later than": the JS comparator returns `b.price - a.price`, and
    `a.time.diff(b.time)` on a price tie, so `a` comes no later than `b` iff
    `a` has the larger price, or prices tie and `a` has the earlier time. -/
def buyLE (a b : Order) : Prop :=
  b.price < a.price ∨ (a.price = b.price ∧ a.time ≤ b.time)

/-- The sell-book comparator of `getBestSellOrder`: the JS comparator returns
    `a.price - b.price`, and `a.time.diff(b.time)` on a price tie, so `a`
    comes no later than `b` iff `a` has the smaller price, or prices tie and
    `a` has the earlier time. -/
def sellLE (a b : Order) : Prop :=
  a.price < b.price ∨ (a.price = b.price ∧ a.time ≤ b.time)

instance : DecidableRel buyLE := fun a b =>
  inferInstanceAs (Decidable (b.price < a.price ∨ (a.price = b.price ∧ a.time ≤ b.time)))

instance : DecidableRel sellLE := fun a b =>
  inferInstanceAs (Decidable (a.price < b.price ∨ (a.price = b.price ∧ a.time ≤ b.time)))

instance : IsTotal Order buyLE :=
  ⟨fun a b => by unfold buyLE; omega⟩

instance : IsTrans Order buyLE :=
  ⟨fun a b c => by unfold buyLE; omega⟩

instance : IsTotal Order sellLE :=
  ⟨fun a b => by unfold sellLE; omega⟩

instance : IsTrans Order sellLE :=
  ⟨fun a b c => by unfold sellLE; omega⟩

/-- The in-place `this.buyOrders.sort(...)` of the JS code; `Array.prototype.sort`
    is stable (ES2019), modelled by a stable insertion sort. -/
def sortBuys (l : List Order) : List Order := l.insertionSort buyLE

/-- The in-place `this.sellOrders.sort(...)` of the JS code. -/
def sortSells (l : List Order) : List Order := l.insertionSort sellLE

/-- `getBestBuyOrder`: sort the buy book, return its front; `none` models the
    thrown "There aren't any buy orders". -/
def getBestBuyOrder (m : Matcher) : Option Order := (sortBuys m.buyOrders).head?

/-- `getBestSellOrder`: sort the sell book, return its front; `none` models the
    thrown "There aren't any sell orders". -/
def getBestSellOrder (m : Matcher) : Option Order := (sortSells m.sellOrders).head?

/-- `hasFoundOverlap` together with its side effect on the engine state: the
    call to `getBestBuyOrder` sorts the buy book in place before throwing on an
    empty book, and `getBestSellOrder` is reached (and sorts the sell book in
    place) only when the buy book is non-empty; both exceptions are caught and
    turned into `false`. -/
def hasFoundOverlapRun (m : Matcher) : Bool × Matcher :=
  match sortBuys m.buyOrders with
  | [] => (false, { m with buyOrders := [] })
  | bb :: tb =>
    match sortSells m.sellOrders with
    | [] => (false, { m with buyOrders := bb :: tb, sellOrders := [] })
    | sb :: ts =>
      (decide (sb.price < bb.price), { m with buyOrders := bb :: tb, sellOrders := sb :: ts })

/-- The Boolean value `hasFoundOverlap` returns. -/
def hasFoundOverlap (m : Matcher) : Bool := (hasFoundOverlapRun m).1

/-- `addOrderPreservingTimestamp`. The `instanceof Order` guard is enforced by
    typing, and the trailing "Unexpected order action" branch is unreachable
    because `Action` has exactly the two tcomb enum values. -/
def addOrderPreservingTimestamp (m : Matcher) (o : Order) : Matcher × Option String :=
  if o.quantity = 0 then (m, some "Orders for 0 are not allowed")
  else
    match o.action with
    | Action.BUY => ({ m with buyOrders := m.buyOrders ++ [o] }, none)
    | Action.SELL => ({ m with sellOrders := m.sellOrders ++ [o] }, none)

/-- `addOrder`: stamp the arrival time (`moment()`, passed as `now`) and book
    the order. -/
def addOrder (m : Matcher) (now : Int) (o : Order) : Matcher × Option String :=
  addOrderPreservingTimestamp m { o with time := now }

/-- `addUser`: store a fresh balance under a new id (the `uuidv4()` generation
    is modelled by passing the fresh id explicitly). -/
def addUser (m : Matcher) (id : Nat) (money stock : Int) : Matcher :=
  { m with users := fun a => if a = id then ⟨money, stock⟩ else m.users a }

/-- The matched quantity after the seller-holdings cap of `processOrder`
    (lines 158-161): the minimum of the two best quantities, overridden by the
    seller's stock when the seller holds less than the ask quantity. -/
def stockDelta1 (users : Nat → Balance) (bb sb : Order) : Int :=
  if (users sb.account).stock < sb.quantity then (users sb.account).stock
  else min bb.quantity sb.quantity

/-- The matched quantity after the buyer budget cap of `processOrder`
    (lines 176-180): when the buyer cannot afford the full cost, the quantity
    becomes `Math.floor(buyingUser.money / singleBuyCost)`, i.e. floor
    division. -/
def stockDeltaFinal (users : Nat → Balance) (bb sb : Order) : Int :=
  if (users bb.account).money < bb.price * stockDelta1 users bb sb then
    Int.fdiv (users bb.account).money bb.price
  else stockDelta1 users bb sb

/-- The `$merge` users patch of `processOrder` (lines 192-199). The JS patch
    object literal lists the buyer key first and the seller key second, so on a
    self-trade (buyer account = seller account) the seller entry overwrites the
    buyer entry; hence the seller account is tested first here. Both new
    balances are computed from the balances read before the merge. -/
def settleUsers (users : Nat → Balance) (bb sb : Order) (d : Int) : Nat → Balance :=
  fun a =>
    if a = sb.account then
      ⟨(users sb.account).money + d * sb.price, (users sb.account).stock - d⟩
    else if a = bb.account then
      ⟨(users bb.account).money - bb.price * d, (users bb.account).stock + d⟩
    else users a

/-- `processOrder` (the spec's `settleOnce`). Returns the post-call state and
    `some message` when the JS code throws. After `hasFoundOverlap` has sorted
    both books in place, the second calls to `getBestBuyOrder` and
    `getBestSellOrder` stable-sort already stably-sorted arrays, which leaves
    them unchanged, so the best orders are the heads left by
    `hasFoundOverlapRun`. The remainder pushes reuse
    `addOrderPreservingTimestamp` (bypassing the re-stamping of `addOrder`),
    and the final `shift()` calls drop the fronts of the books. -/
def processOrder (m : Matcher) (now : Int) : Matcher × Option String :=
  match hasFoundOverlapRun m with
  | (false, m1) => (m1, some "Can't process orders when they don't overlap")
  | (true, m1) =>
    match m1.buyOrders, m1.sellOrders with
    | bb :: tb, sb :: ts =>
      if stockDelta1 m1.users bb sb = 0 then
        -- seller with no stock will clog the market, remove order
        ({ m1 with sellOrders := ts }, none)
      else if (m1.users bb.account).money < bb.price then
        -- not enough money to buy even one, remove that buy order
        ({ m1 with buyOrders := tb }, none)
      else
        let d := stockDeltaFinal m1.users bb sb
        let m2 : Matcher := { m1 with overheadMade := m1.overheadMade + (bb.price * d - d * sb.price) }
        let m3 : Matcher := { m2 with users := settleUsers m2.users bb sb d }
        match (if d < bb.quantity then
                 addOrderPreservingTimestamp m3 { bb with quantity := bb.quantity - d }
               else (m3, none)) with
        | (m4, some e) => (m4, some e)
        | (m4, none) =>
          match (if d < sb.quantity then
                   addOrderPreservingTimestamp m4 { sb with quantity := sb.quantity - d }
                 else (m4, none)) with
          | (m5, some e) => (m5, some e)
          | (m5, none) =>
            ({ m5 with
                buyOrders := m5.buyOrders.tail
                sellOrders := m5.sellOrders.tail
                history := m5.history ++
                  [⟨bb.account, sb.account, bb.price, sb.price, d, now⟩] }, none)
    | _, _ => (m1, some "unreachable: an overlap implies both books are non-empty")

/-- The book invariant the code actually maintains (see claim C9): no stored
    order has quantity zero. -/
def BooksNonzero (m : Matcher) : Prop :=
  ∀ o : Order, o ∈ m.buyOrders ∨ o ∈ m.sellOrders → o.quantity ≠ 0

/-- Engine states reachable through the external API: the constructor,
    `addUser`, `addOrder` and `processOrder` (`addOrderPreservingTimestamp` is
    documented as internal). -/
inductive Reachable : Matcher → Prop where
  | init : Reachable initMatcher
  | user {m : Matcher} (id : Nat) (money stock : Int) :
      Reachable m → Reachable (addUser m id money stock)
  | order {m : Matcher} (now : Int) (o : Order) :
      Reachable m → Reachable (addOrder m now o).1
  | settle {m : Matcher} (now : Int) :
      Reachable m → Reachable (processOrder m now).1

/-! ### Properties of the book comparators and of sorting -/

theorem sortBuys_perm (l : List Order) : List.Perm (sortBuys l) l :=
  List.perm_insertionSort buyLE l

theorem sortSells_perm (l : List Order) : List.Perm (sortSells l) l :=
  List.perm_insertionSort sellLE l

theorem mem_sortBuys {o : Order} {l : List Order} : o ∈ sortBuys l ↔ o ∈ l :=
  List.mem_insertionSort buyLE

theorem mem_sortSells {o : Order} {l : List Order} : o ∈ sortSells l ↔ o ∈ l :=
  List.mem_insertionSort sellLE

theorem sortBuys_eq_nil {l : List Order} : sortBuys l = [] ↔ l = [] := by
  constructor
  · intro h
    exact (h ▸ sortBuys_perm l).symm.eq_nil
  · intro h
    subst h
    simp [sortBuys]

theorem sortSells_eq_nil {l : List Order} : sortSells l = [] ↔ l = [] := by
  constructor
  · intro h
    exact (h ▸ sortSells_perm l).symm.eq_nil
  · intro h
    subst h
    simp [sortSells]

theorem sorted_sortBuys (l : List Order) : (sortBuys l).Pairwise buyLE :=
  List.sorted_insertionSort buyLE l

theorem sorted_sortSells (l : List Order) : (sortSells l).Pairwise sellLE :=
  List.sorted_insertionSort sellLE l

/-! ### Characterizations of the hasFoundOverlap and processOrder paths -/

theorem hasFoundOverlapRun_cons {m : Matcher} {bb sb : Order} {tb ts : List Order}
    (hb : sortBuys m.buyOrders = bb :: tb) (hs : sortSells m.sellOrders = sb :: ts) :
    hasFoundOverlapRun m =
      (decide (sb.price < bb.price),
       { m with buyOrders := bb :: tb, sellOrders := sb :: ts }) := by
  unfold hasFoundOverlapRun
  rw [hb, hs]

theorem hasFoundOverlapRun_frame (m : Matcher) :
    (hasFoundOverlapRun m).2.users = m.users ∧
    (hasFoundOverlapRun m).2.overheadMade = m.overheadMade ∧
    (hasFoundOverlapRun m).2.history = m.history ∧
    List.Perm (hasFoundOverlapRun m).2.buyOrders m.buyOrders ∧
    List.Perm (hasFoundOverlapRun m).2.sellOrders m.sellOrders := by
  have hpb := sortBuys_perm m.buyOrders
  have hps := sortSells_perm m.sellOrders
  unfold hasFoundOverlapRun
  cases hb : sortBuys m.buyOrders with
  | nil =>
    rw [hb] at hpb
    exact ⟨rfl, rfl, rfl, hpb, List.Perm.refl _⟩
  | cons bb tb =>
    rw [hb] at hpb
    cases hs : sortSells m.sellOrders with
    | nil =>
      rw [hs] at hps
      exact ⟨rfl, rfl, rfl, hpb, hps⟩
    | cons sb ts =>
      rw [hs] at hps
      exact ⟨rfl, rfl, rfl, hpb, hps⟩

theorem processOrder_noOverlap {m : Matcher} (now : Int) (h : hasFoundOverlap m = false) :
    processOrder m now =
      ((hasFoundOverlapRun m).2, some "Can't process orders when they don't overlap") := by
  unfold hasFoundOverlap at h
  unfold processOrder
  rcases hr : hasFoundOverlapRun m with ⟨b, m1⟩
  rw [hr] at h
  simp only at h
  subst h
  rfl

theorem processOrder_evictSell {m : Matcher} {bb sb : Order} {tb ts : List Order} (now : Int)
    (hb : sortBuys m.buyOrders = bb :: tb) (hs : sortSells m.sellOrders = sb :: ts)
    (hov : sb.price < bb.price)
    (hd1 : stockDelta1 m.users bb sb = 0) :
    processOrder m now = ({ m with buyOrders := bb :: tb, sellOrders := ts }, none) := by
  unfold processOrder
  rw [hasFoundOverlapRun_cons hb hs, decide_eq_true hov]
  simp [hd1]

theorem processOrder_evictBuy {m : Matcher} {bb sb : Order} {tb ts : List Order} (now : Int)
    (hb : sortBuys m.buyOrders = bb :: tb) (hs : sortSells m.sellOrders = sb :: ts)
    (hov : sb.price < bb.price)
    (hd1 : stockDelta1 m.users bb sb ≠ 0)
    (hpoor : (m.users bb.account).money < bb.price) :
    processOrder m now = ({ m with buyOrders := tb, sellOrders := sb :: ts }, none) := by
  unfold processOrder
  rw [hasFoundOverlapRun_cons hb hs, decide_eq_true hov]
  simp [hd1, hpoor]

theorem processOrder_trade {m : Matcher} {bb sb : Order} {tb ts : List Order} (now : Int)
    (hb : sortBuys m.buyOrders = bb :: tb) (hs : sortSells m.sellOrders = sb :: ts)
    (hov : sb.price < bb.price)
    (hd1 : stockDelta1 m.users bb sb ≠ 0)
    (haff : ¬ (m.users bb.account).money < bb.price) :
    processOrder m now =
      ({ buyOrders := tb
           ++ (if bb.action = Action.BUY ∧ stockDeltaFinal m.users bb sb < bb.quantity
               then [{ bb with quantity := bb.quantity - stockDeltaFinal m.users bb sb }] else [])
           ++ (if sb.action = Action.BUY ∧ stockDeltaFinal m.users bb sb < sb.quantity
               then [{ sb with quantity := sb.quantity - stockDeltaFinal m.users bb sb }] else []),
         sellOrders := ts
           ++ (if bb.action = Action.SELL ∧ stockDeltaFinal m.users bb sb < bb.quantity
               then [{ bb with quantity := bb.quantity - stockDeltaFinal m.users bb sb }] else [])
           ++ (if sb.action = Action.SELL ∧ stockDeltaFinal m.users bb sb < sb.quantity
               then [{ sb with quantity := sb.quantity - stockDeltaFinal m.users bb sb }] else []),
         overheadMade := m.overheadMade + (bb.price * stockDeltaFinal m.users bb sb
           - stockDeltaFinal m.users bb sb * sb.price),
         users := settleUsers m.users bb sb (stockDeltaFinal m.users bb sb),
         history := m.history ++ [⟨bb.account, sb.account, bb.price, sb.price,
           stockDeltaFinal m.users bb sb, now⟩] }, none) := by
  unfold processOrder
  rw [hasFoundOverlapRun_cons hb hs, decide_eq_true hov]
  by_cases h1 : stockDeltaFinal m.users bb sb < bb.quantity
  · have hq1 : ¬ bb.quantity - stockDeltaFinal m.users bb sb = 0 := by omega
    by_cases h2 : stockDeltaFinal m.users bb sb < sb.quantity
    · have hq2 : ¬ sb.quantity - stockDeltaFinal m.users bb sb = 0 := by omega
      cases hba : bb.action <;> cases hsa : sb.action <;>
        simp [hd1, haff, h1, h2, hq1, hq2, addOrderPreservingTimestamp, hba, hsa]
    · cases hba : bb.action <;> cases hsa : sb.action <;>
        simp [hd1, haff, h1, h2, hq1, addOrderPreservingTimestamp, hba, hsa]
  · by_cases h2 : stockDeltaFinal m.users bb sb < sb.quantity
    · have hq2 : ¬ sb.quantity - stockDeltaFinal m.users bb sb = 0 := by omega
      cases hba : bb.action <;> cases hsa : sb.action <;>
        simp [hd1, haff, h1, h2, hq2, addOrderPreservingTimestamp, hba, hsa]
    · cases hba : bb.action <;> cases hsa : sb.action <;>
        simp [hd1, haff, h1, h2, addOrderPreservingTimestamp, hba, hsa]

theorem overlap_heads {m : Matcher} (h : hasFoundOverlap m = true) :
    ∃ bb tb sb ts, sortBuys m.buyOrders = bb :: tb ∧ sortSells m.sellOrders = sb :: ts ∧
      sb.price < bb.price := by
  unfold hasFoundOverlap hasFoundOverlapRun at h
  cases hb : sortBuys m.buyOrders with
  | nil =>
    rw [hb] at h
    simp at h
  | cons bb tb =>
    cases hs : sortSells m.sellOrders with
    | nil =>
      rw [hb, hs] at h
      simp at h
    | cons sb ts =>
      rw [hb, hs] at h
      simp only [decide_eq_true_eq] at h
      exact ⟨bb, tb, sb, ts, rfl, rfl, h⟩

theorem head_mem_of_sortBuys {m : Matcher} {bb : Order} {tb : List Order}
    (hb : sortBuys m.buyOrders = bb :: tb) : bb ∈ m.buyOrders :=
  mem_sortBuys.mp (by rw [hb]; exact List.mem_cons_self bb tb)

theorem head_mem_of_sortSells {m : Matcher} {sb : Order} {ts : List Order}
    (hs : sortSells m.sellOrders = sb :: ts) : sb ∈ m.sellOrders :=
  mem_sortSells.mp (by rw [hs]; exact List.mem_cons_self sb ts)

/-! ### The claims -/

/-- Claim C3: `hasFoundOverlap` returns true iff both books are non-empty and
the best bid's price is strictly greater than the best ask's price; in
particular it returns false (never an error) when the best prices are equal or
when either book is empty. -/
theorem claim3_overlap_iff (m : Matcher) :
    hasFoundOverlap m = true ↔
      m.buyOrders ≠ [] ∧ m.sellOrders ≠ [] ∧
      ∃ b s, getBestBuyOrder m = some b ∧ getBestSellOrder m = some s ∧ s.price < b.price := by
  unfold hasFoundOverlap hasFoundOverlapRun getBestBuyOrder getBestSellOrder
  cases hb : sortBuys m.buyOrders with
  | nil =>
    have hbe : m.buyOrders = [] := sortBuys_eq_nil.mp hb
    simp [hbe]
  | cons bb tb =>
    have hbne : m.buyOrders ≠ [] := by
      intro h
      rw [sortBuys_eq_nil.mpr h] at hb
      exact List.noConfusion hb
    cases hs : sortSells m.sellOrders with
    | nil =>
      have hse : m.sellOrders = [] := sortSells_eq_nil.mp hs
      simp [hse]
    | cons sb ts =>
      have hsne : m.sellOrders ≠ [] := by
        intro h
        rw [sortSells_eq_nil.mpr h] at hs
        exact List.noConfusion hs
      simp [hbne, hsne]

/-- Claim C4: for every non-empty bid book, `getBestBuyOrder` returns a booked
bid of maximal price, ties on price broken by the earliest arrival timestamp;
symmetrically, for every non-empty ask book, `getBestSellOrder` returns a
booked ask of minimal price, ties broken by earliest arrival. -/
theorem claim4_best_order_priority (m : Matcher) :
    (m.buyOrders ≠ [] →
      ∃ b, getBestBuyOrder m = some b ∧ b ∈ m.buyOrders ∧
        ∀ o ∈ m.buyOrders, o.price ≤ b.price ∧ (o.price = b.price → b.time ≤ o.time)) ∧
    (m.sellOrders ≠ [] →
      ∃ s, getBestSellOrder m = some s ∧ s ∈ m.sellOrders ∧
        ∀ o ∈ m.sellOrders, s.price ≤ o.price ∧ (o.price = s.price → s.time ≤ o.time)) := by
  constructor
  · intro hne
    cases hb : sortBuys m.buyOrders with
    | nil => exact absurd (sortBuys_eq_nil.mp hb) hne
    | cons b t =>
      refine ⟨b, ?_, head_mem_of_sortBuys hb, ?_⟩
      · unfold getBestBuyOrder
        rw [hb]
        rfl
      · intro o ho
        have ho2 : o ∈ b :: t := by rw [← hb]; exact mem_sortBuys.mpr ho
        have hsorted := sorted_sortBuys m.buyOrders
        rw [hb] at hsorted
        rcases List.mem_cons.mp ho2 with h | h
        · subst h
          exact ⟨le_refl _, fun _ => le_refl _⟩
        · have hle := (List.pairwise_cons.mp hsorted).1 o h
          unfold buyLE at hle
          exact ⟨by omega, by omega⟩
  · intro hne
    cases hs : sortSells m.sellOrders with
    | nil => exact absurd (sortSells_eq_nil.mp hs) hne
    | cons s t =>
      refine ⟨s, ?_, head_mem_of_sortSells hs, ?_⟩
      · unfold getBestSellOrder
        rw [hs]
        rfl
      · intro o ho
        have ho2 : o ∈ s :: t := by rw [← hs]; exact mem_sortSells.mpr ho
        have hsorted := sorted_sortSells m.sellOrders
        rw [hs] at hsorted
        rcases List.mem_cons.mp ho2 with h | h
        · subst h
          exact ⟨le_refl _, fun _ => le_refl _⟩
        · have hle := (List.pairwise_cons.mp hsorted).1 o h
          unfold sellLE at hle
          exact ⟨by omega, by omega⟩

/-- Claim C10: when all booked prices are non-negative, the budget-cap division
of `processOrder` (`Math.floor(buyingUser.money / singleBuyCost)`) is never a
division by zero: it is reached only under `hasFoundOverlap`, which forces
`bestBuy.price > bestSell.price ≥ 0`, hence the divisor `bestBuy.price ≥ 1`. -/
theorem claim10_division_nonzero (m : Matcher)
    (hpb : ∀ o ∈ m.buyOrders, 0 ≤ o.price) (hps : ∀ o ∈ m.sellOrders, 0 ≤ o.price)
    (hov : hasFoundOverlap m = true) :
    ∃ b s, getBestBuyOrder m = some b ∧ getBestSellOrder m = some s ∧
      s.price < b.price ∧ 0 ≤ s.price ∧ 1 ≤ b.price ∧ b.price ≠ 0 := by
  obtain ⟨bb, tb, sb, ts, hb, hs, hlt⟩ := overlap_heads hov
  have hsp : 0 ≤ sb.price := hps sb (head_mem_of_sortSells hs)
  refine ⟨bb, sb, ?_, ?_, hlt, hsp, by omega, by omega⟩
  · unfold getBestBuyOrder
    rw [hb]
    rfl
  · unfold getBestSellOrder
    rw [hs]
    rfl

/-- Claim C1 (amended: the hypothesis that all booked order quantities are
non-negative is added, forced by the counterexample below): starting from any
state whose balances are all non-negative and whose booked orders all have
non-negative prices and non-negative quantities, `processOrder` leaves every
account's money and stock non-negative. -/
theorem claim1_amended (m : Matcher) (now : Int)
    (hmoney : ∀ a : Nat, 0 ≤ (m.users a).money)
    (hstock : ∀ a : Nat, 0 ≤ (m.users a).stock)
    (hpb : ∀ o ∈ m.buyOrders, 0 ≤ o.price) (hps : ∀ o ∈ m.sellOrders, 0 ≤ o.price)
    (hqb : ∀ o ∈ m.buyOrders, 0 ≤ o.quantity) (hqs : ∀ o ∈ m.sellOrders, 0 ≤ o.quantity) :
    ∀ a : Nat, 0 ≤ ((processOrder m now).1.users a).money ∧
               0 ≤ ((processOrder m now).1.users a).stock := by
  intro a
  cases hov : hasFoundOverlap m with
  | false =>
    rw [processOrder_noOverlap now hov]
    have hframe := (hasFoundOverlapRun_frame m).1
    show 0 ≤ ((hasFoundOverlapRun m).2.users a).money ∧
         0 ≤ ((hasFoundOverlapRun m).2.users a).stock
    rw [hframe]
    exact ⟨hmoney a, hstock a⟩
  | true =>
    obtain ⟨bb, tb, sb, ts, hb, hs, hlt⟩ := overlap_heads hov
    have hsp : 0 ≤ sb.price := hps sb (head_mem_of_sortSells hs)
    have hbp : 0 < bb.price := by omega
    have hbq : 0 ≤ bb.quantity := hqb bb (head_mem_of_sortBuys hb)
    have hsq : 0 ≤ sb.quantity := hqs sb (head_mem_of_sortSells hs)
    by_cases hd1 : stockDelta1 m.users bb sb = 0
    · rw [processOrder_evictSell now hb hs hlt hd1]
      exact ⟨hmoney a, hstock a⟩
    · by_cases hpoor : (m.users bb.account).money < bb.price
      · rw [processOrder_evictBuy now hb hs hlt hd1 hpoor]
        exact ⟨hmoney a, hstock a⟩
      · rw [processOrder_trade now hb hs hlt hd1 hpoor]
        have hd1nn : 0 ≤ stockDelta1 m.users bb sb := by
          unfold stockDelta1
          split
          · exact hstock sb.account
          · exact le_min hbq hsq
        have hd1le : stockDelta1 m.users bb sb ≤ (m.users sb.account).stock := by
          unfold stockDelta1
          split
          · exact le_refl _
          · next h => exact le_trans (min_le_right _ _) (by omega)
        have hdnn : 0 ≤ stockDeltaFinal m.users bb sb := by
          unfold stockDeltaFinal
          split
          · exact Int.fdiv_nonneg (hmoney bb.account) (le_of_lt hbp)
          · exact hd1nn
        have hdle1 : stockDeltaFinal m.users bb sb ≤ stockDelta1 m.users bb sb := by
          unfold stockDeltaFinal
          split
          · next h =>
            rw [Int.fdiv_eq_ediv _ (le_of_lt hbp)]
            have h2 : (m.users bb.account).money < stockDelta1 m.users bb sb * bb.price := by
              linarith [h]
            exact le_of_lt ((Int.ediv_lt_iff_lt_mul hbp).mpr h2)
          · exact le_refl _
        have hcost : bb.price * stockDeltaFinal m.users bb sb ≤ (m.users bb.account).money := by
          unfold stockDeltaFinal
          split
          · next h =>
            rw [Int.fdiv_eq_ediv _ (le_of_lt hbp)]
            have h2 := Int.ediv_mul_le (m.users bb.account).money (ne_of_gt hbp)
            linarith [h2]
          · next h => linarith [h]
        show 0 ≤ (settleUsers m.users bb sb (stockDeltaFinal m.users bb sb) a).money ∧
             0 ≤ (settleUsers m.users bb sb (stockDeltaFinal m.users bb sb) a).stock
        unfold settleUsers
        have hprod : 0 ≤ stockDeltaFinal m.users bb sb * sb.price := mul_nonneg hdnn hsp
        split_ifs with h1 h2
        · constructor
          · show 0 ≤ (m.users sb.account).money + stockDeltaFinal m.users bb sb * sb.price
            linarith [hmoney sb.account]
          · show 0 ≤ (m.users sb.account).stock - stockDeltaFinal m.users bb sb
            linarith [hd1le, hdle1]
        · constructor
          · show 0 ≤ (m.users bb.account).money - bb.price * stockDeltaFinal m.users bb sb
            linarith [hcost]
          · show 0 ≤ (m.users bb.account).stock + stockDeltaFinal m.users bb sb
            linarith [hstock bb.account, hdnn]
        · exact ⟨hmoney a, hstock a⟩

/-- The engine state refuting claim C1 as stated: all balances are non-negative
and all booked prices are non-negative, but the buy book holds a
negative-quantity bid (which admission accepts: only quantity 0 is rejected). -/
def c1state : Matcher :=
  { buyOrders := [⟨0, 10, -3, Action.BUY, 0⟩],
    sellOrders := [⟨1, 5, 5, Action.SELL, 1⟩],
    overheadMade := 0,
    users := fun a => if a = 0 then ⟨100, 0⟩ else ⟨100, 5⟩,
    history := [] }

/-- Counterexample to claim C1 as stated: in `c1state` every balance is
non-negative and every booked price is non-negative, yet after one
`processOrder` the buyer (account 0) holds stock -3. -/
theorem claim1_counterexample :
    (∀ a : Nat, 0 ≤ (c1state.users a).money ∧ 0 ≤ (c1state.users a).stock) ∧
    (∀ o ∈ c1state.buyOrders, 0 ≤ o.price) ∧ (∀ o ∈ c1state.sellOrders, 0 ≤ o.price) ∧
    ((processOrder c1state 9).1.users 0).stock = -3 ∧
    ¬ (∀ a : Nat, 0 ≤ ((processOrder c1state 9).1.users a).money ∧
         0 ≤ ((processOrder c1state 9).1.users a).stock) := by
  refine ⟨?_, by decide, by decide, by decide, ?_⟩
  · intro a
    show 0 ≤ (if a = 0 then (⟨100, 0⟩ : Balance) else ⟨100, 5⟩).money ∧
         0 ≤ (if a = 0 then (⟨100, 0⟩ : Balance) else ⟨100, 5⟩).stock
    split <;> exact ⟨by decide, by decide⟩
  · intro hall
    exact absurd (hall 0).2 (by decide)

/-- A Scenario-A-like state used to witness the amended claim C1. -/
def c1wit : Matcher :=
  { buyOrders := [⟨0, 1500, 5, Action.BUY, 0⟩],
    sellOrders := [⟨1, 1000, 5, Action.SELL, 1⟩],
    overheadMade := 0,
    users := fun a => if a = 0 then ⟨15000, 71⟩ else ⟨19000, 17⟩,
    history := [] }

theorem claim1_witness :
    0 ≤ ((processOrder c1wit 2).1.users 0).money ∧
    0 ≤ ((processOrder c1wit 2).1.users 0).stock :=
  claim1_amended c1wit 2
    (by
      intro a
      show 0 ≤ (if a = 0 then (⟨15000, 71⟩ : Balance) else ⟨19000, 17⟩).money
      split <;> decide)
    (by
      intro a
      show 0 ≤ (if a = 0 then (⟨15000, 71⟩ : Balance) else ⟨19000, 17⟩).stock
      split <;> decide)
    (by decide) (by decide) (by decide) (by decide) 0

/-- Claim C2 (amended: the buyer and seller accounts are required to be
distinct, forced by the self-trade counterexample below): in every settlement
step that produces a trade of matched quantity `qty = stockDeltaFinal`, the
buyer's money decreases by exactly `qty * bestBuy.price`, the seller's money
increases by exactly `qty * bestSell.price`, the overhead added this step is
`qty * bestBuy.price - qty * bestSell.price`, the buyer's stock increases by
`qty` and the seller's stock decreases by `qty`. -/
theorem claim2_amended (m : Matcher) (now : Int) {bb sb : Order} {tb ts : List Order}
    (hb : sortBuys m.buyOrders = bb :: tb) (hs : sortSells m.sellOrders = sb :: ts)
    (hov : sb.price < bb.price)
    (hd1 : stockDelta1 m.users bb sb ≠ 0)
    (haff : ¬ (m.users bb.account).money < bb.price)
    (hne : bb.account ≠ sb.account) :
    ((processOrder m now).1.users bb.account).money
        = (m.users bb.account).money - stockDeltaFinal m.users bb sb * bb.price ∧
    ((processOrder m now).1.users sb.account).money
        = (m.users sb.account).money + stockDeltaFinal m.users bb sb * sb.price ∧
    (processOrder m now).1.overheadMade
        = m.overheadMade + (stockDeltaFinal m.users bb sb * bb.price
            - stockDeltaFinal m.users bb sb * sb.price) ∧
    ((processOrder m now).1.users bb.account).stock
        = (m.users bb.account).stock + stockDeltaFinal m.users bb sb ∧
    ((processOrder m now).1.users sb.account).stock
        = (m.users sb.account).stock - stockDeltaFinal m.users bb sb := by
  rw [processOrder_trade now hb hs hov hd1 haff]
  refine ⟨?_, ?_, ?_, ?_, ?_⟩
  · show (settleUsers m.users bb sb (stockDeltaFinal m.users bb sb) bb.account).money = _
    unfold settleUsers
    rw [if_neg hne, if_pos rfl]
    show (m.users bb.account).money - bb.price * stockDeltaFinal m.users bb sb = _
    ring
  · show (settleUsers m.users bb sb (stockDeltaFinal m.users bb sb) sb.account).money = _
    unfold settleUsers
    rw [if_pos rfl]
  · show m.overheadMade + (bb.price * stockDeltaFinal m.users bb sb
        - stockDeltaFinal m.users bb sb * sb.price) = _
    ring
  · show (settleUsers m.users bb sb (stockDeltaFinal m.users bb sb) bb.account).stock = _
    unfold settleUsers
    rw [if_neg hne, if_pos rfl]
  · show (settleUsers m.users bb sb (stockDeltaFinal m.users bb sb) sb.account).stock = _
    unfold settleUsers
    rw [if_pos rfl]

/-- A state in which one account trades with itself: account 0 holds
{money 1500, stock 1} and has booked both Bid(0, 1500, 1) and Ask(0, 1000, 1). -/
def selfTrade : Matcher :=
  { buyOrders := [⟨0, 1500, 1, Action.BUY, 0⟩],
    sellOrders := [⟨0, 1000, 1, Action.SELL, 1⟩],
    overheadMade := 0,
    users := fun _ => ⟨1500, 1⟩,
    history := [] }

/-- Counterexample to claim C2 as stated: in `selfTrade` a settlement step
produces a trade of quantity 1 (recorded in the history), yet the buyer's
money does not decrease by `1 * 1500 = 1500` to `0`: because buyer and seller
are the same account and the seller entry of the users patch overwrites the
buyer entry, the account's money becomes `2500`. -/
theorem claim2_counterexample :
    stockDelta1 selfTrade.users ⟨0, 1500, 1, Action.BUY, 0⟩ ⟨0, 1000, 1, Action.SELL, 1⟩ ≠ 0 ∧
    (processOrder selfTrade 5).1.history = [⟨0, 0, 1500, 1000, 1, 5⟩] ∧
    ((processOrder selfTrade 5).1.users 0).money = 2500 ∧
    (selfTrade.users 0).money - 1 * 1500 = 0 ∧
    ((processOrder selfTrade 5).1.users 0).money ≠ (selfTrade.users 0).money - 1 * 1500 := by
  refine ⟨by decide, by decide, by decide, by decide, by decide⟩

/-- A state witnessing the amended claim C2 (Scenario A of the test suite). -/
def c2wit : Matcher :=
  { buyOrders := [⟨0, 1500, 5, Action.BUY, 0⟩],
    sellOrders := [⟨1, 1000, 5, Action.SELL, 1⟩],
    overheadMade := 0,
    users := fun a => if a = 0 then ⟨15000, 71⟩ else ⟨19000, 17⟩,
    history := [] }

theorem claim2_witness :
    ((processOrder c2wit 2).1.users 0).money
        = (c2wit.users 0).money - stockDeltaFinal c2wit.users
            ⟨0, 1500, 5, Action.BUY, 0⟩ ⟨1, 1000, 5, Action.SELL, 1⟩ * 1500 ∧
    ((processOrder c2wit 2).1.users 1).money
        = (c2wit.users 1).money + stockDeltaFinal c2wit.users
            ⟨0, 1500, 5, Action.BUY, 0⟩ ⟨1, 1000, 5, Action.SELL, 1⟩ * 1000 ∧
    (processOrder c2wit 2).1.overheadMade
        = c2wit.overheadMade + (stockDeltaFinal c2wit.users
              ⟨0, 1500, 5, Action.BUY, 0⟩ ⟨1, 1000, 5, Action.SELL, 1⟩ * 1500
            - stockDeltaFinal c2wit.users
              ⟨0, 1500, 5, Action.BUY, 0⟩ ⟨1, 1000, 5, Action.SELL, 1⟩ * 1000) ∧
    ((processOrder c2wit 2).1.users 0).stock
        = (c2wit.users 0).stock + stockDeltaFinal c2wit.users
            ⟨0, 1500, 5, Action.BUY, 0⟩ ⟨1, 1000, 5, Action.SELL, 1⟩ ∧
    ((processOrder c2wit 2).1.users 1).stock
        = (c2wit.users 1).stock - stockDeltaFinal c2wit.users
            ⟨0, 1500, 5, Action.BUY, 0⟩ ⟨1, 1000, 5, Action.SELL, 1⟩ :=
  @claim2_amended c2wit 2 ⟨0, 1500, 5, Action.BUY, 0⟩ ⟨1, 1000, 5, Action.SELL, 1⟩ [] []
    (by decide) (by decide) (by decide) (by decide) (by decide) (by decide)

/-- The initial state of Scenario A: account 0 (the spec's A) holds
{money 15000, stock 71}, account 1 (the spec's B) holds {money 19000, stock 17}. -/
def scenarioAStart : Matcher :=
  { buyOrders := [], sellOrders := [], overheadMade := 0,
    users := fun a => if a = 0 then ⟨15000, 71⟩ else if a = 1 then ⟨19000, 17⟩ else ⟨0, 0⟩,
    history := [] }

/-- Scenario A run: submit Bid(A, 1500, 5) and Ask(B, 1000, 5), then settle
once (arrival clocks 0 and 1, settlement clock 2). -/
def scenarioA : Matcher :=
  (processOrder
    (addOrder (addOrder scenarioAStart 0 ⟨0, 1500, 5, Action.BUY, 0⟩).1
      1 ⟨1, 1000, 5, Action.SELL, 0⟩).1
    2).1

/-- Claim C5 (Scenario A): after submitting Bid(A, 1500, 5) and Ask(B, 1000, 5)
and settling once, A = {7500, 76}, B = {24000, 12}, the total overhead is 2500,
and the history holds exactly one record {buyer A, seller B, buyPrice 1500,
sellPrice 1000, quantity 5}. -/
theorem claim5_scenarioA :
    scenarioA.users 0 = ⟨7500, 76⟩ ∧
    scenarioA.users 1 = ⟨24000, 12⟩ ∧
    scenarioA.overheadMade = 2500 ∧
    scenarioA.history = [⟨0, 1, 1500, 1000, 5, 2⟩] := by
  refine ⟨by decide, by decide, by decide, by decide⟩

/-- Claim C6: in a settlement step that trades quantity `qty = stockDeltaFinal`
strictly less than the best bid's (respectively best ask's) quantity, the
corresponding book afterwards is exactly the sorted remainder of the book with
a replacement order appended whose account, price, side and arrival timestamp
are those of the original best order and whose quantity is reduced by exactly
`qty`; the original best entry itself is gone. -/
theorem claim6_partial_remainder (m : Matcher) (now : Int) {bb sb : Order} {tb ts : List Order}
    (hb : sortBuys m.buyOrders = bb :: tb) (hs : sortSells m.sellOrders = sb :: ts)
    (hov : sb.price < bb.price)
    (hd1 : stockDelta1 m.users bb sb ≠ 0)
    (haff : ¬ (m.users bb.account).money < bb.price)
    (hba : bb.action = Action.BUY) (hsa : sb.action = Action.SELL) :
    (stockDeltaFinal m.users bb sb < bb.quantity →
      (processOrder m now).1.buyOrders
        = tb ++ [⟨bb.account, bb.price, bb.quantity - stockDeltaFinal m.users bb sb,
                  bb.action, bb.time⟩]) ∧
    (stockDeltaFinal m.users bb sb < sb.quantity →
      (processOrder m now).1.sellOrders
        = ts ++ [⟨sb.account, sb.price, sb.quantity - stockDeltaFinal m.users bb sb,
                  sb.action, sb.time⟩]) := by
  rw [processOrder_trade now hb hs hov hd1 haff]
  constructor
  · intro h1
    show tb ++ _ ++ _ = _
    rw [if_pos ⟨hba, h1⟩, if_neg (by simp [hsa])]
    simp
  · intro h2
    show ts ++ _ ++ _ = _
    rw [if_neg (by simp [hba]), if_pos ⟨hsa, h2⟩]
    simp

/-- The pre-settlement state of Scenario B: Bid(A, 1500, 6) against
Ask(B, 1000, 5), a partial fill of the bid. -/
def c6wit : Matcher :=
  { buyOrders := [⟨0, 1500, 6, Action.BUY, 0⟩],
    sellOrders := [⟨1, 1000, 5, Action.SELL, 1⟩],
    overheadMade := 0,
    users := fun a => if a = 0 then ⟨15000, 71⟩ else ⟨19000, 17⟩,
    history := [] }

theorem claim6_witness :
    (processOrder c6wit 2).1.buyOrders = [⟨0, 1500, 1, Action.BUY, 0⟩] :=
  (@claim6_partial_remainder c6wit 2 ⟨0, 1500, 6, Action.BUY, 0⟩ ⟨1, 1000, 5, Action.SELL, 1⟩
    [] [] (by decide) (by decide) (by decide) (by decide) (by decide) (by decide)
    (by decide)).1 (by decide)

/-- Claim C7 (amended: on a failing settlement the books are preserved as
unordered collections but may be re-sorted in place, forced by the
counterexample below): when `hasFoundOverlap` is false, `processOrder` throws
the no-overlap error and leaves all balances, the overhead total and the
history unchanged, and both books unchanged up to reordering; and every failure
of `addOrder` leaves the entire state untouched. -/
theorem claim7_failure_frame (m : Matcher) (now : Int) :
    (hasFoundOverlap m = false →
      (processOrder m now).2 = some "Can't process orders when they don't overlap" ∧
      (processOrder m now).1.users = m.users ∧
      (processOrder m now).1.overheadMade = m.overheadMade ∧
      (processOrder m now).1.history = m.history ∧
      List.Perm (processOrder m now).1.buyOrders m.buyOrders ∧
      List.Perm (processOrder m now).1.sellOrders m.sellOrders) ∧
    (∀ o : Order, ∀ e : String, (addOrder m now o).2 = some e → (addOrder m now o).1 = m) := by
  constructor
  · intro h
    rw [processOrder_noOverlap now h]
    obtain ⟨hu, ho, hh, hpb, hps⟩ := hasFoundOverlapRun_frame m
    exact ⟨rfl, hu, ho, hh, hpb, hps⟩
  · intro o e
    unfold addOrder addOrderPreservingTimestamp
    by_cases hq : ({ o with time := now } : Order).quantity = 0
    · rw [if_pos hq]
      intro
      rfl
    · rw [if_neg hq]
      cases ({ o with time := now } : Order).action <;> intro h <;> exact Option.noConfusion h

/-- A no-overlap state whose buy book is not sorted: Bid(0, 500) arrived before
Bid(1, 700), and the only ask at 9000 does not cross. -/
def c7state : Matcher :=
  { buyOrders := [⟨0, 500, 1, Action.BUY, 0⟩, ⟨1, 700, 1, Action.BUY, 1⟩],
    sellOrders := [⟨2, 9000, 1, Action.SELL, 0⟩],
    overheadMade := 0,
    users := fun _ => ⟨10000, 10⟩,
    history := [] }

/-- Counterexample to claim C7 as stated: in `c7state` there is no overlap and
the failing `processOrder` throws, but it does not leave the buy book
unchanged — the call re-sorts the book in place (price-descending), which is
observable through `getOrdersByAccount`. -/
theorem claim7_counterexample :
    hasFoundOverlap c7state = false ∧
    (processOrder c7state 3).2 = some "Can't process orders when they don't overlap" ∧
    (processOrder c7state 3).1.buyOrders ≠ c7state.buyOrders := by
  refine ⟨by decide, by decide, by decide⟩

theorem claim7_witness :
    ((processOrder c7state 3).2 = some "Can't process orders when they don't overlap" ∧
     (processOrder c7state 3).1.users = c7state.users ∧
     (processOrder c7state 3).1.overheadMade = c7state.overheadMade ∧
     (processOrder c7state 3).1.history = c7state.history ∧
     List.Perm (processOrder c7state 3).1.buyOrders c7state.buyOrders ∧
     List.Perm (processOrder c7state 3).1.sellOrders c7state.sellOrders) ∧
    (addOrder c7state 3 ⟨0, 100, 0, Action.BUY, 0⟩).1 = c7state :=
  ⟨(claim7_failure_frame c7state 3).1 (by decide),
   (claim7_failure_frame c7state 3).2 ⟨0, 100, 0, Action.BUY, 0⟩
     "Orders for 0 are not allowed" (by decide)⟩

/-- Claim C8 (amended: the bid book is preserved as an unordered collection but
may be re-sorted in place, forced by the counterexample below): when there is
an overlap but the capped matched quantity is 0 (for example a best-ask seller
with no stock), `processOrder` removes the best ask from the ask book, returns
normally with no trade, appends no history record, adds no overhead, and leaves
every account balance unchanged and the bid book unchanged up to reordering. -/
theorem claim8_amended (m : Matcher) (now : Int) {bb sb : Order} {tb ts : List Order}
    (hb : sortBuys m.buyOrders = bb :: tb) (hs : sortSells m.sellOrders = sb :: ts)
    (hov : sb.price < bb.price)
    (hd1 : stockDelta1 m.users bb sb = 0) :
    (processOrder m now).2 = none ∧
    (processOrder m now).1.users = m.users ∧
    (processOrder m now).1.overheadMade = m.overheadMade ∧
    (processOrder m now).1.history = m.history ∧
    (processOrder m now).1.sellOrders = ts ∧
    List.Perm (sb :: (processOrder m now).1.sellOrders) m.sellOrders ∧
    List.Perm (processOrder m now).1.buyOrders m.buyOrders := by
  rw [processOrder_evictSell now hb hs hov hd1]
  have hpb := sortBuys_perm m.buyOrders
  rw [hb] at hpb
  have hps := sortSells_perm m.sellOrders
  rw [hs] at hps
  exact ⟨rfl, rfl, rfl, rfl, rfl, hps, hpb⟩

/-- An eviction scenario in the spirit of Scenario D: seller 2 with
{money 43000, stock 0} has booked Ask(2, 100, 1); two crossing bids rest in the
book in non-sorted order. -/
def c8state : Matcher :=
  { buyOrders := [⟨0, 500, 1, Action.BUY, 0⟩, ⟨1, 700, 1, Action.BUY, 1⟩],
    sellOrders := [⟨2, 100, 1, Action.SELL, 0⟩],
    overheadMade := 0,
    users := fun a => if a = 2 then ⟨43000, 0⟩ else ⟨10000, 10⟩,
    history := [] }

/-- Counterexample to claim C8 as stated: in `c8state` the capped matched
quantity is 0, and the settlement call evicts the ask with no trade, but it
does not leave the bid book unchanged — the call re-sorts the bid book in
place. -/
theorem claim8_counterexample :
    stockDelta1 c8state.users ⟨1, 700, 1, Action.BUY, 1⟩ ⟨2, 100, 1, Action.SELL, 0⟩ = 0 ∧
    (processOrder c8state 3).2 = none ∧
    (processOrder c8state 3).1.history = c8state.history ∧
    (processOrder c8state 3).1.buyOrders ≠ c8state.buyOrders := by
  refine ⟨by decide, by decide, by decide, by decide⟩

theorem claim8_witness :
    (processOrder c8state 3).2 = none ∧
    (processOrder c8state 3).1.users = c8state.users ∧
    (processOrder c8state 3).1.overheadMade = c8state.overheadMade ∧
    (processOrder c8state 3).1.history = c8state.history ∧
    (processOrder c8state 3).1.sellOrders = [] ∧
    List.Perm (⟨2, 100, 1, Action.SELL, 0⟩ :: (processOrder c8state 3).1.sellOrders)
      c8state.sellOrders ∧
    List.Perm (processOrder c8state 3).1.buyOrders c8state.buyOrders :=
  @claim8_amended c8state 3 ⟨1, 700, 1, Action.BUY, 1⟩ ⟨2, 100, 1, Action.SELL, 0⟩
    [⟨0, 500, 1, Action.BUY, 0⟩] [] (by decide) (by decide) (by decide) (by decide)

theorem mem_ite_rem {c : Prop} [Decidable c] {x r : Order}
    (hx : x ∈ (if c then [r] else [])) : c ∧ x = r := by
  by_cases hc : c
  · rw [if_pos hc] at hx
    exact ⟨hc, List.mem_singleton.mp hx⟩
  · rw [if_neg hc] at hx
    exact absurd hx (List.not_mem_nil x)

theorem addOrderPT_books_nonzero {m : Matcher} {o : Order} (h : BooksNonzero m) :
    BooksNonzero (addOrderPreservingTimestamp m o).1 := by
  unfold addOrderPreservingTimestamp
  by_cases hq : o.quantity = 0
  · rw [if_pos hq]
    exact h
  · rw [if_neg hq]
    cases ha : o.action with
    | BUY =>
      intro x hx
      rcases hx with hx | hx
      · rcases List.mem_append.mp hx with hx | hx
        · exact h x (Or.inl hx)
        · rw [List.mem_singleton.mp hx]
          exact hq
      · exact h x (Or.inr hx)
    | SELL =>
      intro x hx
      rcases hx with hx | hx
      · exact h x (Or.inl hx)
      · rcases List.mem_append.mp hx with hx | hx
        · exact h x (Or.inr hx)
        · rw [List.mem_singleton.mp hx]
          exact hq

theorem processOrder_books_nonzero {m : Matcher} (now : Int) (h : BooksNonzero m) :
    BooksNonzero (processOrder m now).1 := by
  cases hov : hasFoundOverlap m with
  | false =>
    rw [processOrder_noOverlap now hov]
    obtain ⟨-, -, -, hpb, hps⟩ := hasFoundOverlapRun_frame m
    intro x hx
    rcases hx with hx | hx
    · exact h x (Or.inl (hpb.mem_iff.mp hx))
    · exact h x (Or.inr (hps.mem_iff.mp hx))
  | true =>
    obtain ⟨bb, tb, sb, ts, hb, hs, hlt⟩ := overlap_heads hov
    have hmb : ∀ x ∈ tb, x ∈ m.buyOrders := fun x hx =>
      mem_sortBuys.mp (by rw [hb]; exact List.mem_cons_of_mem bb hx)
    have hms : ∀ x ∈ ts, x ∈ m.sellOrders := fun x hx =>
      mem_sortSells.mp (by rw [hs]; exact List.mem_cons_of_mem sb hx)
    by_cases hd1 : stockDelta1 m.users bb sb = 0
    · rw [processOrder_evictSell now hb hs hlt hd1]
      intro x hx
      rcases hx with hx | hx
      · rcases List.mem_cons.mp hx with rfl | hx
        · exact h x (Or.inl (head_mem_of_sortBuys hb))
        · exact h x (Or.inl (hmb x hx))
      · exact h x (Or.inr (hms x hx))
    · by_cases hpoor : (m.users bb.account).money < bb.price
      · rw [processOrder_evictBuy now hb hs hlt hd1 hpoor]
        intro x hx
        rcases hx with hx | hx
        · exact h x (Or.inl (hmb x hx))
        · rcases List.mem_cons.mp hx with rfl | hx
          · exact h x (Or.inr (head_mem_of_sortSells hs))
          · exact h x (Or.inr (hms x hx))
      · rw [processOrder_trade now hb hs hlt hd1 hpoor]
        intro x hx
        rcases hx with hx | hx
        · rcases List.mem_append.mp hx with hx | hx
          · rcases List.mem_append.mp hx with hx | hx
            · exact h x (Or.inl (hmb x hx))
            · obtain ⟨⟨-, hlt2⟩, rfl⟩ := mem_ite_rem hx
              show bb.quantity - stockDeltaFinal m.users bb sb ≠ 0
              omega
          · obtain ⟨⟨-, hlt2⟩, rfl⟩ := mem_ite_rem hx
            show sb.quantity - stockDeltaFinal m.users bb sb ≠ 0
            omega
        · rcases List.mem_append.mp hx with hx | hx
          · rcases List.mem_append.mp hx with hx | hx
            · exact h x (Or.inr (hms x hx))
            · obtain ⟨⟨-, hlt2⟩, rfl⟩ := mem_ite_rem hx
              show bb.quantity - stockDeltaFinal m.users bb sb ≠ 0
              omega
          · obtain ⟨⟨-, hlt2⟩, rfl⟩ := mem_ite_rem hx
            show sb.quantity - stockDeltaFinal m.users bb sb ≠ 0
            omega

/-- Claim C9 (amended: "quantity > 0" is weakened to "quantity ≠ 0", forced by
the counterexample below — admission rejects exactly zero-quantity orders and
accepts negative quantities): in every reachable engine state, every order
present in either book has non-zero quantity; settlement remainder orders in
particular always carry quantity `best.quantity - qty > 0`. -/
theorem claim9_amended (m : Matcher) (h : Reachable m) : BooksNonzero m := by
  induction h with
  | init =>
    intro x hx
    rcases hx with hx | hx <;> exact absurd hx (List.not_mem_nil x)
  | user id money stock hm ih =>
    intro x hx
    exact ih x hx
  | order now o hm ih =>
    exact addOrderPT_books_nonzero ih
  | settle now hm ih =>
    exact processOrder_books_nonzero now ih

/-- Counterexample to claim C9 as stated: from the initial state, admission
accepts an order of quantity -1 (only quantity 0 is rejected) and stores it in
the buy book, so a reachable state holds a booked order whose quantity is not
positive. -/
theorem claim9_counterexample :
    Reachable (addOrder initMatcher 0 ⟨0, 5, -1, Action.BUY, 0⟩).1 ∧
    (addOrder initMatcher 0 ⟨0, 5, -1, Action.BUY, 0⟩).2 = none ∧
    (addOrder initMatcher 0 ⟨0, 5, -1, Action.BUY, 0⟩).1.buyOrders
      = [⟨0, 5, -1, Action.BUY, 0⟩] ∧
    ¬ (∀ x : Order, x ∈ (addOrder initMatcher 0 ⟨0, 5, -1, Action.BUY, 0⟩).1.buyOrders ∨
         x ∈ (addOrder initMatcher 0 ⟨0, 5, -1, Action.BUY, 0⟩).1.sellOrders →
         0 < x.quantity) := by
  refine ⟨Reachable.order 0 _ Reachable.init, by decide, by decide, ?_⟩
  intro hall
  exact absurd (hall ⟨0, 5, -1, Action.BUY, 0⟩ (Or.inl (by decide))) (by decide)

theorem claim9_witness :
    BooksNonzero (addOrder initMatcher 0 ⟨0, 5, 3, Action.BUY, 0⟩).1 :=
  claim9_amended _ (Reachable.order 0 ⟨0, 5, 3, Action.BUY, 0⟩ Reachable.init)

theorem claim3_witness :
    hasFoundOverlap c2wit = true ↔
      c2wit.buyOrders ≠ [] ∧ c2wit.sellOrders ≠ [] ∧
      ∃ b s, getBestBuyOrder c2wit = some b ∧ getBestSellOrder c2wit = some s ∧
        s.price < b.price :=
  claim3_overlap_iff c2wit

/-- A state with several bids and asks, including a price tie among the asks,
used to witness claim C4. -/
def c4ex : Matcher :=
  { buyOrders := [⟨0, 1400, 12, Action.BUY, 0⟩, ⟨1, 1450, 12, Action.BUY, 1⟩],
    sellOrders := [⟨0, 1300, 12, Action.SELL, 0⟩, ⟨1, 1300, 10, Action.SELL, 1⟩,
                   ⟨2, 1500, 4, Action.SELL, 2⟩],
    overheadMade := 0,
    users := fun _ => ⟨0, 0⟩,
    history := [] }

theorem claim4_witness :
    (∃ b, getBestBuyOrder c4ex = some b ∧ b ∈ c4ex.buyOrders ∧
       ∀ o ∈ c4ex.buyOrders, o.price ≤ b.price ∧ (o.price = b.price → b.time ≤ o.time)) ∧
    (∃ s, getBestSellOrder c4ex = some s ∧ s ∈ c4ex.sellOrders ∧
       ∀ o ∈ c4ex.sellOrders, s.price ≤ o.price ∧ (o.price = s.price → s.time ≤ o.time)) :=
  ⟨(claim4_best_order_priority c4ex).1 (by decide),
   (claim4_best_order_priority c4ex).2 (by decide)⟩

theorem claim10_witness :
    ∃ b s, getBestBuyOrder c2wit = some b ∧ getBestSellOrder c2wit = some s ∧
      s.price < b.price ∧ 0 ≤ s.price ∧ 1 ≤ b.price ∧ b.price ≠ 0 :=
  claim10_division_nonzero c2wit (by decide) (by decide) (by decide)

end Engine
